import Mathlib

/-!
Verification of the `justdoit` content-addressable object store.

This file gives a shallow embedding, in Lean 4, of the core routines of the
repository (Go sources under `app/`): the insertion-ordered dictionary
(`app/ordereddict/dict.go`), the KVLM codec (`app/cmd/objects/kvlm.go`), the
commit decoding (`app/cmd/objects/commit.go`, in the revision with the
exported `ParseSignature` / `CreateCommitFromKVLM`), the tree codec
(`app/cmd/objects/tree.go`), the object store (`app/cmd/objects/object.go`)
and reference resolution (`app/cmd/repository/ref.go`), together with
theorems settling the specification's claims about them.

Modelling conventions:
* Go byte slices and Go strings used as byte containers are `List Nat`
  (abbreviation `Bytes`); each element is a byte value.
* Go's `bytes.IndexByte(s, b)` returns a slice-relative index or `-1`; it is
  modelled by `indexByte : Bytes → Nat → Int` with the same convention.
  The Go code of `KvlmParse` mixes these slice-relative indices with
  absolute buffer offsets; the embedding reproduces that mixing verbatim.
* Go's unbounded `for` loop in `KvlmParse` is modelled by a fuel parameter
  (`kvlmScanEnd`); `none` means the fuel ran out while the loop was still
  running, so an input on which the result is `none` for every fuel is an
  input on which the Go loop runs forever.
* Go slice expressions `raw[a:b]` are modelled by the total `goSlice`
  function (empty when `b < a`, where Go would panic); Go type assertions
  `v.([]byte)` that would panic are modelled by a distinguished error.
* Errors built with `fmt.Errorf` are modelled by inductive error types
  carrying the same distinguishing data (field names, offending bytes).
-/

/-- Equality of `Except` results is decidable (needed to settle concrete
claims by evaluation). -/
instance {ε α : Type} [DecidableEq ε] [DecidableEq α] : DecidableEq (Except ε α)
  | .ok a, .ok b =>
    if h : a = b then .isTrue (by rw [h]) else .isFalse (by simp [h])
  | .ok _, .error _ => .isFalse (by simp)
  | .error _, .ok _ => .isFalse (by simp)
  | .error a, .error b =>
    if h : a = b then .isTrue (by rw [h]) else .isFalse (by simp [h])

abbrev Bytes := List Nat

/-- ASCII bytes of a Lean string literal (all literals used are ASCII). -/
def byteStr (s : String) : Bytes := s.toList.map Char.toNat

/-- Decode a byte list back to a string (used where Go converts `[]byte`
to `string` for keys and results; ASCII only in all inputs considered). -/
def bytesToStr (b : Bytes) : String := String.mk (b.map Char.ofNat)

/-- Model of Go `bytes.IndexByte(l, b)`: index of the first occurrence of
byte `b` in `l`, or `-1` when absent.  The index is relative to `l`. -/
def indexByte (l : Bytes) (b : Nat) : Int :=
  match l.findIdx? (fun x => x == b) with
  | some i => (i : Int)
  | none => -1

/-- Model of the Go slice expression `l[a:b]` (total: empty when `b ≤ a`;
Go panics when `b < a` or the bounds exceed the buffer, this embedding
returns the empty/truncated list instead). -/
def goSlice (l : Bytes) (a b : Nat) : Bytes := (l.drop a).take (b - a)

/-- The two value shapes the KVLM code stores in the ordered dictionary:
a single byte-string or an ordered list of byte-strings.  (The Go field is
`interface{}`; every value the KVLM codec and commit/tag decoders create or
consume has one of these two shapes.) -/
inductive KvlmValue where
  | bytes (b : Bytes)
  | list (bs : List Bytes)
deriving DecidableEq

/-- `OrderedDict` of `app/ordereddict/dict.go`: a string-keyed map plus a
key list recording insertion order.  Observably this is an association
list in key insertion order (the Go map holds exactly one value per key),
which is how it is modelled. -/
structure OrderedDict where
  entries : List (Bytes × KvlmValue)
deriving DecidableEq

/-- `New()` of dict.go. -/
def OrderedDict.new : OrderedDict := ⟨[]⟩

/-- `Get` of dict.go: the stored value and (via `Option`) the
present/absent flag. -/
def OrderedDict.get (d : OrderedDict) (k : Bytes) : Option KvlmValue :=
  (d.entries.find? (fun e => e.1 == k)).map (fun e => e.2)

/-- `Set` of dict.go: a new key is appended to the key order; an existing
key keeps its position and its value is OVERWRITTEN (`od.dict[key] = value`). -/
def OrderedDict.set (d : OrderedDict) (k : Bytes) (v : KvlmValue) : OrderedDict :=
  if (d.entries.find? (fun e => e.1 == k)).isSome then
    ⟨d.entries.map (fun e => if e.1 == k then (k, v) else e)⟩
  else
    ⟨d.entries ++ [(k, v)]⟩

/-- `Keys` of dict.go. -/
def OrderedDict.keys (d : OrderedDict) : List Bytes := d.entries.map (fun e => e.1)

/-- `Len` of dict.go. -/
def OrderedDict.len (d : OrderedDict) : Nat := d.keys.length

/-- The duplicate-key accumulation step of `KvlmParse`
(kvlm.go lines 70–80): an existing list value is appended to, an existing
single value is promoted to a two-element list, an absent key is `Set`. -/
def OrderedDict.kvlmAccumulate (d : OrderedDict) (k : Bytes) (value : Bytes) : OrderedDict :=
  match d.get k with
  | some (.list vs) => d.set k (.list (vs ++ [value]))
  | some (.bytes v) => d.set k (.list [v, value])
  | none => d.set k (.bytes value)

/-- Model of `bytes.Replace(v, "\n ", "\n", -1)` in kvlm.go: every
non-overlapping `\n`-space pair, scanned left to right, loses the space. -/
def replaceNlSp : Bytes → Bytes
  | [] => []
  | 10 :: 32 :: rest => 10 :: replaceNlSp rest
  | b :: rest => b :: replaceNlSp rest

/-- The value-end scan loop of `KvlmParse` (kvlm.go lines 51–58), verbatim:

    end := start
    for {
      end = bytes.IndexByte(raw[end+1:], '\n')
      if end < 0 || len(raw) <= end+2 || raw[end+2] != ' ' { break }
      end += 1
    }

`e` is the Go variable `end` (a slice-relative index after the first
iteration; the Go code nevertheless tests `raw[end+2]` and re-slices
`raw[end+1:]` with it).  `some e` is the value of `end` at `break`; `none`
means the fuel was exhausted with the loop still running. -/
def kvlmScanEnd (raw : Bytes) : Nat → Nat → Option Int
  | _, 0 => none
  | e, fuel + 1 =>
    let e2 := indexByte (raw.drop (e + 1)) 10
    if e2 < 0 ∨ (raw.length : Int) ≤ e2 + 2 ∨ raw.getD (e2.toNat + 2) 0 ≠ 32 then
      some e2
    else
      kvlmScanEnd raw (e2.toNat + 1) fuel

/-- The absolute offset at which `KvlmParse` makes its recursive call,
computed from the scan-loop result `e` exactly as the Go code does
(`if end < 0 { end = len(raw) } else { end += start + 1 }`, then `end+1`). -/
def kvlmNextStart (raw : Bytes) (start : Nat) (e : Int) : Nat :=
  (if e < 0 then raw.length else e.toNat + start + 1) + 1

/-- `KvlmParse` of kvlm.go.  `dict = none` models the `nil` argument.  The
`fuel` parameter bounds both the recursion depth and the iteration count of
the value-end scan loop (`kvlmScanEnd`); the result is `none` exactly when
some bound was hit, so an input whose result is `none` for EVERY fuel is an
input on which the Go function runs forever.  The recursion structure, the
slice-relative/absolute index arithmetic (`spc`, `nl`, `end`) and the `end`
adjustment follow the Go source line by line. -/
def KvlmParse (raw : Bytes) (start : Nat) (dict : Option OrderedDict) :
    Nat → Option OrderedDict
  | 0 => none
  | fuel + 1 =>
    let d := dict.getD OrderedDict.new
    if raw.length ≤ start then some d
    else
      let spc := indexByte (raw.drop start) 32
      let nl := indexByte (raw.drop start) 10
      if spc < 0 ∨ (0 ≤ nl ∧ nl < spc) then
        if nl ≠ (start : Int) then some d
        else some (d.set [] (.bytes (raw.drop (start + 1))))
      else
        let key := (raw.drop start).take spc.toNat
        match kvlmScanEnd raw start (fuel + 1) with
        | none => none
        | some e =>
          let endPos := kvlmNextStart raw start e - 1
          let value := replaceNlSp (goSlice raw (start + spc.toNat + 1) endPos)
          KvlmParse raw (kvlmNextStart raw start e) (some (d.kvlmAccumulate key value)) fuel

/-- Line splitting of `bufio.Scanner` with `ScanLines` (used by
`writeKeyValue`): tokens are the text between newlines, a trailing carriage
return is dropped from each token, and a final empty token produced by a
trailing newline is not returned. -/
def scanLines (v : Bytes) : List Bytes :=
  let parts := v.splitOn 10
  let parts := if parts.getLast? = some [] then parts.dropLast else parts
  parts.map (fun l => if l.getLast? = some 13 then l.dropLast else l)

/-- `writeKeyValue` of kvlm.go: key, space, the value's lines joined by
newline-space (continuation marker), final newline. -/
def writeKeyValue (k : Bytes) (v : Bytes) : Bytes :=
  k ++ [32] ++ (List.intercalate [10, 32] (scanLines v)) ++ [10]

/-- The serialization errors of `KvlmSerialize`. -/
inductive KvlmError where
  | nilInput
  | invalidMessageType
deriving DecidableEq

/-- `KvlmSerialize` of kvlm.go: `nil` input (`none`) is an error; keyed
fields are emitted in insertion order, skipping the empty (message) key,
a list value producing one line per element; a present message is emitted
after a blank line, with a trailing newline; a non-byte-string message is
an error. -/
def KvlmSerialize (kvlm : Option OrderedDict) : Except KvlmError Bytes :=
  match kvlm with
  | none => .error .nilInput
  | some d =>
    let fields := d.entries.foldl
      (fun acc e =>
        if e.1 == ([] : Bytes) then acc
        else
          match e.2 with
          | .bytes b => acc ++ writeKeyValue e.1 b
          | .list bs => acc ++ (bs.map (writeKeyValue e.1)).flatten)
      []
    match d.get [] with
    | some (.bytes msg) => .ok (fields ++ [10] ++ msg ++ [10])
    | some (.list _) => .error .invalidMessageType
    | none => .ok fields

/-! ## Dictionary lemmas -/

/-- Helper: replacing the (unique) entry of key `k` in place makes `find?`
return the new pair, provided the key is present. -/
theorem find_replace_present (k : Bytes) (v : KvlmValue) :
    ∀ l : List (Bytes × KvlmValue), (l.find? (fun e => e.1 == k)).isSome →
      (l.map (fun e => if e.1 == k then (k, v) else e)).find? (fun e => e.1 == k) =
        some (k, v) := by
  intro l
  induction l with
  | nil => intro h; simp at h
  | cons e t ih =>
    intro h
    cases hek : (e.1 == k) with
    | true =>
      simp only [List.map_cons, hek, if_true]
      exact List.find?_cons_of_pos _ (by simp)
    | false =>
      have h' : (t.find? (fun e => e.1 == k)).isSome := by
        rwa [List.find?_cons_of_neg _ (by simp [hek])] at h
      simp only [List.map_cons, hek, if_false]
      rw [List.find?_cons_of_neg _ (by simp [hek])]
      exact ih h'

/-- Helper: appending a fresh pair makes `find?` return it, provided the
key was absent before. -/
theorem find_append_absent (k : Bytes) (v : KvlmValue) :
    ∀ l : List (Bytes × KvlmValue), l.find? (fun e => e.1 == k) = none →
      (l ++ [(k, v)]).find? (fun e => e.1 == k) = some (k, v) := by
  intro l
  induction l with
  | nil => intro _; exact List.find?_cons_of_pos _ (by simp)
  | cons e t ih =>
    intro h
    cases hek : (e.1 == k) with
    | true =>
      simp [List.find?_cons, hek] at h
    | false =>
      rw [List.find?_cons_of_neg _ (by simp [hek])] at h
      rw [List.cons_append, List.find?_cons_of_neg _ (by simp [hek])]
      exact ih h

/-- After `Set k v`, `Get k` returns `v` (whether or not `k` was present). -/
theorem OrderedDict.get_set_same (d : OrderedDict) (k : Bytes) (v : KvlmValue) :
    (d.set k v).get k = some v := by
  obtain ⟨l⟩ := d
  unfold OrderedDict.set OrderedDict.get
  by_cases h : (l.find? (fun e => e.1 == k)).isSome
  · rw [if_pos h]
    simp only
    rw [find_replace_present k v l h]
    rfl
  · rw [if_neg h]
    simp only
    rw [find_append_absent k v l (Option.not_isSome_iff_eq_none.mp h)]
    rfl

/-! ## Claim C2 -/

/-- Claim C2, counterexample: `Set` does NOT accumulate.  Setting the key
`"key1"` three times leaves the single last value `"value3"`, not a
3-element ordered list (this matches the repository's own
`TestOrderedDict_Set`, which expects overwriting). -/
theorem claim_C2_counterexample :
    (((OrderedDict.new.set (byteStr "key1") (.bytes (byteStr "value1"))).set
        (byteStr "key1") (.bytes (byteStr "value2"))).set
        (byteStr "key1") (.bytes (byteStr "value3"))).get (byteStr "key1") =
      some (.bytes (byteStr "value3")) ∧
    (((OrderedDict.new.set (byteStr "key1") (.bytes (byteStr "value1"))).set
        (byteStr "key1") (.bytes (byteStr "value2"))).set
        (byteStr "key1") (.bytes (byteStr "value3"))).get (byteStr "key1") ≠
      some (.list [byteStr "value1", byteStr "value2", byteStr "value3"]) := by
  constructor
  · decide
  · decide

/-- Claim C2 (amended): `OrderedDict.Set` overwrites the value of an
existing key; the duplicate-key accumulation the spec describes is done by
the KVLM parser's accumulation step (kvlm.go lines 70–80), and THAT step,
applied three times to the same absent-at-first key, yields a 3-element
ordered list holding the three values in the order they were applied. -/
theorem claim_C2_accumulation (d : OrderedDict) (k : Bytes) (v1 v2 v3 : Bytes)
    (h : d.get k = none) :
    (∀ v v', ((d.set k v).set k v').get k = some v') ∧
    ((((d.kvlmAccumulate k v1).kvlmAccumulate k v2).kvlmAccumulate k v3).get k =
      some (.list [v1, v2, v3])) := by
  constructor
  · intro v v'
    exact OrderedDict.get_set_same _ _ _
  · simp [OrderedDict.kvlmAccumulate, h, OrderedDict.get_set_same]

/-- Witness for `claim_C2_accumulation` at a concrete dictionary and key. -/
theorem claim_C2_accumulation_witness :
    ((((OrderedDict.new.kvlmAccumulate (byteStr "p") (byteStr "x")).kvlmAccumulate
        (byteStr "p") (byteStr "y")).kvlmAccumulate (byteStr "p") (byteStr "z")).get
        (byteStr "p") = some (.list [byteStr "x", byteStr "y", byteStr "z"])) :=
  (claim_C2_accumulation OrderedDict.new (byteStr "p") (byteStr "x") (byteStr "y")
    (byteStr "z") (by decide)).2

/-! ## Claim C1 -/

/-- Claim C1 (code bug): the KVLM round-trip loses the message.  For the
dictionary with one keyed field `"key1" ↦ "value1"` and the message
`"This is a message"` under the empty key, `KvlmSerialize` produces exactly
the bytes of `"key1 value1\n\nThis is a message\n"`, but `KvlmParse` of
those bytes returns a dictionary holding only `"key1"` and NO empty-string
key: the parser's blank-line test compares the slice-relative newline index
`nl` against the absolute offset `start` (`if nl != start`), so the message
branch is unreachable once any keyed field has been consumed.  The
repository's own test (`TestKvlmParse`, case "Message at the end") expects
the message to be restored. -/
theorem claim_C1_roundtrip_drops_message :
    KvlmSerialize (some ⟨[(byteStr "key1", .bytes (byteStr "value1")),
        ([], .bytes (byteStr "This is a message"))]⟩) =
      .ok (byteStr "key1 value1\n\nThis is a message\n") ∧
    KvlmParse (byteStr "key1 value1\n\nThis is a message\n") 0 none 64 =
      some ⟨[(byteStr "key1", .bytes (byteStr "value1"))]⟩ ∧
    ((KvlmParse (byteStr "key1 value1\n\nThis is a message\n") 0 none 64).map
        (fun d => d.get [])) = some none := by
  refine ⟨by decide, by decide, by decide⟩

/-! ## Claim C10 -/

/-- The Go `KvlmParse` runs forever on `(raw, start)`: the fueled model
returns no dictionary no matter how much fuel it is given.  (If the Go
function terminated on this input, some finite fuel would reproduce its
run and return `some`.) -/
def KvlmParseDiverges (raw : Bytes) (start : Nat) : Prop :=
  ∀ fuel, KvlmParse raw start none fuel = none

/-- The concrete input on which the value-end scan loop of `KvlmParse`
cycles: `"k a\n b\n"`, the serialization of a single key `"k"` with the
two-line value `"a\nb"`. -/
def kvlmLoopInput : Bytes := byteStr "k a\n b\n"

/-- On `kvlmLoopInput` the scan loop reaches state `end = 3` and then maps
state `3` back to state `3` forever (the loop re-finds the same newline
through the mixed-up relative indices), so it never breaks. -/
theorem kvlmScanEnd_loops_at_three : ∀ fuel, kvlmScanEnd kvlmLoopInput 3 fuel = none := by
  intro fuel
  induction fuel with
  | zero => rfl
  | succ n ih =>
    exact (rfl : kvlmScanEnd kvlmLoopInput 3 (n + 1) = kvlmScanEnd kvlmLoopInput 3 n).trans ih

/-- From its initial state `end = start = 0` the scan loop on
`kvlmLoopInput` steps into the cycling state `3`, hence never terminates. -/
theorem kvlmScanEnd_loops_from_zero : ∀ fuel, kvlmScanEnd kvlmLoopInput 0 fuel = none := by
  intro fuel
  cases fuel with
  | zero => rfl
  | succ n =>
    exact (rfl : kvlmScanEnd kvlmLoopInput 0 (n + 1) =
      kvlmScanEnd kvlmLoopInput 3 n).trans (kvlmScanEnd_loops_at_three n)

/-- Claim C10, counterexample: `KvlmParse` is NOT total.  On the input
`"k a\n b\n"` at offset `0` (with a `nil` dictionary) the inner value-end
scan loop revisits the same state forever, so the function never returns:
the fueled embedding yields `none` for every fuel bound. -/
theorem claim_C10_counterexample : KvlmParseDiverges kvlmLoopInput 0 := by
  intro fuel
  cases fuel with
  | zero => rfl
  | succ n =>
    have h := kvlmScanEnd_loops_from_zero (n + 1)
    simp only [KvlmParse, h]
    decide

/-- Claim C10 (amended): every recursive call `KvlmParse` actually makes is
at a strictly larger start offset than its caller's — the offset of the
recursive call, `kvlmNextStart`, strictly exceeds `start` whenever the
parser is inside the buffer — so the top-level recursion is well-founded on
the remaining buffer length; what breaks totality is only the inner
value-end scan loop, which can revisit a state and never exit (see the
counterexample). -/
theorem claim_C10_progress (raw : Bytes) (start : Nat) (e : Int)
    (h : start < raw.length) : start < kvlmNextStart raw start e := by
  unfold kvlmNextStart
  split <;> omega

/-- Witness for `claim_C10_progress` at a concrete buffer, offset and
scan result. -/
theorem claim_C10_progress_witness : 0 < kvlmNextStart (byteStr "k v") 0 (-1) :=
  claim_C10_progress (byteStr "k v") 0 (-1) (by decide)

/-! ## Commit decoding (`ParseSignature`, `CreateCommitFromKVLM`) -/

/-- Model of Go `bytes.SplitN(l, [b], 2)`: split at the first occurrence of
byte `b` only; a list with no `b` stays whole. -/
def splitN2OnByte (b : Nat) (l : Bytes) : List Bytes :=
  match l.findIdx? (fun x => x == b) with
  | none => [l]
  | some i => [l.take i, l.drop (i + 1)]

/-- White-space test of Go `bytes.TrimSpace` restricted to ASCII (the only
white-space bytes appearing in signature data). -/
def isSpaceByte (b : Nat) : Bool := b == 32 || b == 9 || b == 10 || b == 11 || b == 12 || b == 13

/-- Model of Go `bytes.TrimSpace`. -/
def trimSpace (l : Bytes) : Bytes :=
  ((l.dropWhile isSpaceByte).reverse.dropWhile isSpaceByte).reverse

/-- Decimal digit run → number; `none` when empty or a non-digit occurs. -/
def digitsToNat? (l : Bytes) : Option Nat :=
  if l = [] then none
  else
    l.foldl
      (fun acc d =>
        match acc with
        | none => none
        | some n => if 48 ≤ d ∧ d ≤ 57 then some (n * 10 + (d - 48)) else none)
      (some 0)

/-- Model of Go `strconv.ParseInt(s, 10, 64)`: optional sign then a
non-empty digit run (the int64 range check is omitted; all timestamps
considered are far below it). -/
def parseInt64 (l : Bytes) : Option Int :=
  match l with
  | 43 :: rest => (digitsToNat? rest).map (fun n => (n : Int))
  | 45 :: rest => (digitsToNat? rest).map (fun n => -(n : Int))
  | _ => (digitsToNat? l).map (fun n => (n : Int))

/-- The decode errors of commit.go: `InvalidSignature`, the name/email and
timestamp format errors of `ParseSignature`, and `CommitKeyMissing` (which
names the absent field).  `typeAssertion` models the run-time panic a Go
type assertion `v.([]byte)` raises on a list-shaped value. -/
inductive CommitError where
  | invalidSignature (sign : Bytes)
  | invalidNameEmail
  | invalidTimestamp
  | missingKey (key : String)
  | typeAssertion
deriving DecidableEq

/-- `GitSignature` of commit.go; `time.Unix(timestamp, 0)` is modelled by
the timestamp itself. -/
structure GitSignature where
  name : Bytes
  email : Bytes
  whenSec : Int
deriving DecidableEq

/-- `GitCommit` of commit.go. -/
structure GitCommit where
  tree : Bytes
  parents : List Bytes
  author : GitSignature
  committer : GitSignature
  message : Bytes
deriving DecidableEq

/-- `ParseSignature` of commit.go (the revision with the exported name,
whose behaviour the repository's `TestParseSignature` checks): split on
spaces; fewer than 4 parts is `InvalidSignature`; all but the last two
parts are re-joined and split at the first `<` into name (space-trimmed)
and email (a trailing `>` is removed); the second-to-last part must parse
as the integer timestamp. -/
def ParseSignature (sign : Bytes) : Except CommitError GitSignature :=
  let parts := sign.splitOn 32
  if parts.length < 4 then .error (.invalidSignature sign)
  else
    match splitN2OnByte 60 (List.intercalate [32] (parts.take (parts.length - 2))) with
    | [n, e] =>
      let name := trimSpace n
      let email := if e.getLast? = some 62 then e.dropLast else e
      match parseInt64 (parts.getD (parts.length - 2) []) with
      | none => .error .invalidTimestamp
      | some ts => .ok ⟨name, email, ts⟩
    | _ => .error .invalidNameEmail

/-- `CreateCommitFromKVLM` of commit.go: `tree`, `author`, `committer` and
the empty-key message are mandatory, each checked in that order with
`CommitKeyMissing` naming the absent one; `parent` is optional and may be
single or a list; both signatures must parse. -/
def CreateCommitFromKVLM (kvlm : OrderedDict) : Except CommitError GitCommit :=
  match kvlm.get (byteStr "tree") with
  | none => .error (.missingKey "tree")
  | some (.list _) => .error .typeAssertion
  | some (.bytes tree) =>
    let parents : List Bytes :=
      match kvlm.get (byteStr "parent") with
      | none => []
      | some (.bytes p) => [p]
      | some (.list ps) => ps
    match kvlm.get (byteStr "author") with
    | none => .error (.missingKey "author")
    | some (.list _) => .error .typeAssertion
    | some (.bytes author) =>
      match ParseSignature author with
      | .error e => .error e
      | .ok authorSign =>
        match kvlm.get (byteStr "committer") with
        | none => .error (.missingKey "committer")
        | some (.list _) => .error .typeAssertion
        | some (.bytes committer) =>
          match ParseSignature committer with
          | .error e => .error e
          | .ok committerSign =>
            match kvlm.get [] with
            | none => .error (.missingKey "message")
            | some (.list _) => .error .typeAssertion
            | some (.bytes message) =>
              .ok ⟨tree, parents, authorSign, committerSign, message⟩

/-! ## Claim C6 -/

/-- Claim C6: parsing `"John Doe <john@example.com> 1623456789 +0100"`
yields name `"John Doe"`, email `"john@example.com"` and timestamp
`1623456789`; parsing `"Invalid signature"` (2 space-separated tokens,
fewer than 4) fails with the malformed-signature error. -/
theorem claim_C6_parse_signature :
    ParseSignature (byteStr "John Doe <john@example.com> 1623456789 +0100") =
      .ok ⟨byteStr "John Doe", byteStr "john@example.com", 1623456789⟩ ∧
    ParseSignature (byteStr "Invalid signature") =
      .error (.invalidSignature (byteStr "Invalid signature")) := by
  refine ⟨by decide, by decide⟩

/-! ## Claim C5 -/

/-- Claim C5, counterexample: a KVLM dictionary lacking `author` does NOT
always fail with the error naming `"author"`: when `tree` is also absent
(here: only `committer` and the message are present), the error names
`"tree"`, because `CreateCommitFromKVLM` checks `tree` first. -/
theorem claim_C5_counterexample :
    CreateCommitFromKVLM ⟨[(byteStr "committer",
        .bytes (byteStr "Jane Smith <jane@example.com> 1623456790 +0100")),
        ([], .bytes (byteStr "Implement new feature"))]⟩ =
      .error (.missingKey "tree") ∧
    CreateCommitFromKVLM ⟨[(byteStr "committer",
        .bytes (byteStr "Jane Smith <jane@example.com> 1623456790 +0100")),
        ([], .bytes (byteStr "Implement new feature"))]⟩ ≠
      .error (.missingKey "author") := by
  refine ⟨by decide, by decide⟩

/-- Claim C5 (amended): for every KVLM dictionary in which `tree` is
present with a byte-string value and `author` is absent, building the
typed commit fails with the missing-key error naming `"author"`, whatever
the `committer` key, the `parent` key and the message are; when `tree` is
absent as well, the error names `"tree"` instead (see the
counterexample). -/
theorem claim_C5_missing_author (d : OrderedDict) (b : Bytes)
    (htree : d.get (byteStr "tree") = some (.bytes b))
    (hauthor : d.get (byteStr "author") = none) :
    CreateCommitFromKVLM d = .error (.missingKey "author") := by
  unfold CreateCommitFromKVLM
  rw [htree, hauthor]

/-- Witness for `claim_C5_missing_author` at a concrete dictionary holding
`tree` and `committer` but no `author`. -/
theorem claim_C5_missing_author_witness :
    CreateCommitFromKVLM ⟨[(byteStr "tree",
        .bytes (byteStr "29ff16c9c14e2652b22f8b78bb08a5a07930c147")),
        (byteStr "committer",
        .bytes (byteStr "Jane Smith <jane@example.com> 1623456790 +0100"))]⟩ =
      .error (.missingKey "author") :=
  claim_C5_missing_author _ (byteStr "29ff16c9c14e2652b22f8b78bb08a5a07930c147")
    (by decide) (by decide)

/-! ## Tree codec (`tree.go`) -/

/-- The closed set of object types (`GitObjectType` in object.go). -/
inductive GitObjectType where
  | blob
  | commit
  | tree
  | tag
deriving DecidableEq

/-- `String()` of `GitObjectType`. -/
def GitObjectType.toStr : GitObjectType → String
  | .blob => "blob"
  | .commit => "commit"
  | .tree => "tree"
  | .tag => "tag"

/-- The tree-codec errors: `InvalidTreeEntry(problem)`, the
`invalid object type` error of `Type()` (carrying the offending type
prefix), and the `hex.DecodeString` failure in `treeSerialize`. -/
inductive TreeError where
  | invalidType (typeStr : Bytes)
  | invalidEntry (problem : String)
  | hexFail
deriving DecidableEq

/-- `GitTreeLeaf` of tree.go (`mode`, `sha` hex-encoded, `path`). -/
structure GitTreeLeaf where
  mode : Bytes
  sha : Bytes
  path : Bytes
deriving DecidableEq

/-- `GitTree` of tree.go. -/
structure GitTree where
  entries : List GitTreeLeaf
deriving DecidableEq

/-- `Type()` of `GitTreeLeaf` (tree.go lines 56–77): a 5-byte mode yields
its leading ONE byte as the type string, any other length its leading two
bytes (Go panics when the mode has fewer than 2 bytes; the model's `take`
is total there); the type string is then compared against the two-byte
strings `"10"`, `"04"`, `"16"`, `"12"`. -/
def GitTreeLeaf.gitType (tr : GitTreeLeaf) : Except TreeError GitObjectType :=
  let typeStr := if tr.mode.length = 5 then tr.mode.take 1 else tr.mode.take 2
  if typeStr = byteStr "10" then .ok .blob
  else if typeStr = byteStr "04" then .ok .tree
  else if typeStr = byteStr "16" then .ok .commit
  else if typeStr = byteStr "12" then .ok .blob
  else .error (.invalidType typeStr)

/-- Hex digit of a nibble (lower case, as `hex.EncodeToString`). -/
def hexDigitChar (n : Nat) : Nat := if n < 10 then 48 + n else 87 + n

/-- Model of `hex.EncodeToString`. -/
def hexEncode (l : Bytes) : Bytes :=
  (l.map (fun b => [hexDigitChar (b / 16), hexDigitChar (b % 16)])).flatten

/-- Value of one hex digit character, `none` for a non-digit. -/
def hexDigitVal? (c : Nat) : Option Nat :=
  if 48 ≤ c ∧ c ≤ 57 then some (c - 48)
  else if 97 ≤ c ∧ c ≤ 102 then some (c - 87)
  else if 65 ≤ c ∧ c ≤ 70 then some (c - 55)
  else none

/-- Model of `hex.DecodeString`: pairs of hex digits to bytes; odd length
or an invalid digit fails. -/
def hexDecode : Bytes → Option Bytes
  | [] => some []
  | [_] => none
  | c1 :: c2 :: rest =>
    match hexDigitVal? c1, hexDigitVal? c2, hexDecode rest with
    | some hi, some lo, some bs => some ((hi * 16 + lo) :: bs)
    | _, _, _ => none

/-- `ShaSize` of tree.go. -/
def ShaSize : Nat := 20

/-- `parseSingleTreeEntry` of tree.go: mode up to the first space (its
length must be 5 or 6; a 5-byte mode is left-padded with one SPACE byte),
path up to the next NUL, then exactly `ShaSize` raw hash bytes which are
hex-encoded into the leaf.  Returns the position after the entry and
the leaf. -/
def parseSingleTreeEntry (raw : Bytes) (start : Nat) :
    Except TreeError (Nat × GitTreeLeaf) :=
  let x := indexByte (raw.drop start) 32
  if x < 0 then .error (.invalidEntry "missing mode")
  else if x ≠ 5 ∧ x ≠ 6 then .error (.invalidEntry "invalid mode length")
  else
    let xn := x.toNat
    let mode := goSlice raw start (start + xn)
    let mode := if mode.length = 5 then 32 :: mode else mode
    let nullIdx := indexByte (raw.drop (start + xn + 1)) 0
    if nullIdx < 0 then .error (.invalidEntry "missing null terminator")
    else
      let nullIdxA := nullIdx.toNat + start + xn + 1
      let path := goSlice raw (start + xn + 1) nullIdxA
      if (raw.drop (nullIdxA + 1)).length < ShaSize then .error (.invalidEntry "missing sha")
      else
        let shaStart := nullIdxA + 1
        .ok (shaStart + ShaSize,
          ⟨mode, hexEncode (goSlice raw shaStart (shaStart + ShaSize)), path⟩)

/-- Strict lexicographic byte-string order, as Go compares `string`s with
`<` in the tree sort: element-wise on byte values, a strict prefix is
smaller. -/
def bytesLtB : Bytes → Bytes → Bool
  | [], [] => false
  | [], _ :: _ => true
  | _ :: _, [] => false
  | a :: as, b :: bs => if a < b then true else if b < a then false else bytesLtB as bs

/-- The sort key of `treeSerialize` (tree.go `sortFunc`): the path for a
mode with prefix `"10"` (file), the path plus `"/"` otherwise. -/
def treeSortKey (leaf : GitTreeLeaf) : Bytes :=
  if leaf.mode.take 2 = byteStr "10" then leaf.path else leaf.path ++ [47]

/-- The (non-strict, total) order in which `treeSerialize` arranges
entries: `a` before `b` unless `b`'s key is strictly smaller. -/
def treeLeafLe (a b : GitTreeLeaf) : Prop :=
  bytesLtB (treeSortKey b) (treeSortKey a) = false

instance : DecidableRel treeLeafLe := fun a b => by
  unfold treeLeafLe
  infer_instance

/-- The sorted entry list of `treeSerialize`.  Go's `sort.Slice` is an
unstable sort, so the order of entries with equal keys is unspecified
there; the model sorts with insertion sort, which agrees with any correct
sort whenever the keys are pairwise distinct (as in every claim
considered). -/
def treeSortedEntries (tree : GitTree) : List GitTreeLeaf :=
  List.insertionSort treeLeafLe tree.entries

/-- `treeSerialize` of tree.go: sort, then emit
`mode SPACE path NUL raw-hash` per entry, the hash decoded from its hex
form (a decode failure aborts with an error). -/
def treeSerialize (tree : GitTree) : Except TreeError Bytes :=
  (treeSortedEntries tree).foldl
    (fun acc item =>
      match acc with
      | .error e => .error e
      | .ok bs =>
        match hexDecode item.sha with
        | none => .error .hexFail
        | some sha => .ok (bs ++ item.mode ++ [32] ++ item.path ++ [0] ++ sha))
    (.ok [])

/-! ## Order facts for the tree sort -/

/-- `bytesLtB` is asymmetric. -/
theorem bytesLtB_asymm : ∀ a b : Bytes, bytesLtB a b = true → bytesLtB b a = false := by
  intro a
  induction a with
  | nil =>
    intro b h
    cases b with
    | nil => simp [bytesLtB] at h
    | cons y ys => simp [bytesLtB]
  | cons x xs ih =>
    intro b h
    cases b with
    | nil => simp [bytesLtB] at h
    | cons y ys =>
      simp only [bytesLtB] at h ⊢
      by_cases hxy : x < y
      · have hyx : ¬ y < x := by omega
        simp [hxy, hyx]
      · by_cases hyx : y < x
        · simp [hxy, hyx] at h
        · simp only [hxy, hyx, if_false] at h ⊢
          exact ih ys h

/-- Two byte strings neither of which is `bytesLtB`-smaller are equal. -/
theorem bytesLtB_eq_of_not_lt :
    ∀ a b : Bytes, bytesLtB a b = false → bytesLtB b a = false → a = b := by
  intro a
  induction a with
  | nil =>
    intro b h1 _
    cases b with
    | nil => rfl
    | cons y ys => simp [bytesLtB] at h1
  | cons x xs ih =>
    intro b h1 h2
    cases b with
    | nil => simp [bytesLtB] at h2
    | cons y ys =>
      simp only [bytesLtB] at h1 h2
      by_cases hxy : x < y
      · simp [hxy] at h1
      · by_cases hyx : y < x
        · simp [hyx, hxy] at h2
        · have hx : x = y := by omega
          simp only [hxy, hyx, if_false] at h1 h2
          rw [hx, ih ys h1 h2]

/-- `bytesLtB` is transitive. -/
theorem bytesLtB_trans :
    ∀ a b c : Bytes, bytesLtB a b = true → bytesLtB b c = true → bytesLtB a c = true := by
  intro a
  induction a with
  | nil =>
    intro b c h1 h2
    cases b with
    | nil => simp [bytesLtB] at h1
    | cons y ys =>
      cases c with
      | nil => simp [bytesLtB] at h2
      | cons z zs => simp [bytesLtB]
  | cons x xs ih =>
    intro b c h1 h2
    cases b with
    | nil => simp [bytesLtB] at h1
    | cons y ys =>
      cases c with
      | nil => simp [bytesLtB] at h2
      | cons z zs =>
        simp only [bytesLtB] at h1 h2 ⊢
        by_cases hxy : x < y <;> by_cases hyz : y < z
        · have : x < z := by omega
          simp [this]
        · simp only [hyz, if_false] at h2
          by_cases hzy : z < y
          · simp [hzy] at h2
          · have : x < z := by omega
            simp [this]
        · simp only [hxy, if_false] at h1
          by_cases hyx : y < x
          · simp [hyx] at h1
          · have : x < z := by omega
            simp [this]
        · simp only [hxy, hyz, if_false] at h1 h2
          by_cases hyx : y < x
          · simp [hyx] at h1
          · by_cases hzy : z < y
            · simp [hzy] at h2
            · have hxz : ¬ x < z := by omega
              have hzx : ¬ z < x := by omega
              simp only [hyx, hzy, if_false] at h1 h2
              simp only [hxz, hzx, if_false]
              exact ih ys zs h1 h2

instance : IsTotal GitTreeLeaf treeLeafLe where
  total := by
    intro a b
    unfold treeLeafLe
    by_cases h : bytesLtB (treeSortKey b) (treeSortKey a) = false
    · exact Or.inl h
    · refine Or.inr (bytesLtB_asymm _ _ ?_)
      revert h
      cases bytesLtB (treeSortKey b) (treeSortKey a) <;> simp

instance : IsTrans GitTreeLeaf treeLeafLe where
  trans := by
    intro a b c h1 h2
    unfold treeLeafLe at h1 h2 ⊢
    by_contra hca
    have hca' : bytesLtB (treeSortKey c) (treeSortKey a) = true := by
      revert hca
      cases bytesLtB (treeSortKey c) (treeSortKey a) <;> simp
    by_cases hbc : bytesLtB (treeSortKey b) (treeSortKey c) = true
    · have := bytesLtB_trans _ _ _ hbc hca'
      rw [this] at h1
      exact Bool.true_eq_false.mp h1
    · have hbc' : bytesLtB (treeSortKey b) (treeSortKey c) = false := by
        revert hbc
        cases bytesLtB (treeSortKey b) (treeSortKey c) <;> simp
      have heq := bytesLtB_eq_of_not_lt _ _ hbc' h2
      rw [heq] at h1
      rw [hca'] at h1
      exact Bool.true_eq_false.mp h1

/-! ## Claim C8 -/

/-- Claim C8: `treeSerialize` emits the entries sorted by the key
`treeSortKey` (the path for `"10"`-mode entries, the path plus `"/"`
otherwise): the emitted entry list is a permutation of the tree's entries
that is sorted under that key order; and for the three entries
`{path "b", file mode 100644}`, `{path "a", directory mode 040000}`,
`{path "a", file mode 100644}` the serialized output lists the `"a"` file
entry first, then the `"a"` directory entry, then the `"b"` file entry. -/
theorem claim_C8_tree_sort (tr : GitTree)
    (h : tr.entries = [⟨byteStr "100644", byteStr (String.mk (List.replicate 40 '3')), byteStr "b"⟩,
        ⟨byteStr "040000", byteStr (String.mk (List.replicate 40 '2')), byteStr "a"⟩,
        ⟨byteStr "100644", byteStr (String.mk (List.replicate 40 '1')), byteStr "a"⟩]) :
    (∀ tree : GitTree,
      (treeSortedEntries tree).Perm tree.entries ∧
      List.Sorted treeLeafLe (treeSortedEntries tree)) ∧
    treeSerialize tr =
      .ok (byteStr "100644 a" ++ [0] ++ List.replicate 20 0x11 ++
        (byteStr "040000 a" ++ [0] ++ List.replicate 20 0x22) ++
        (byteStr "100644 b" ++ [0] ++ List.replicate 20 0x33)) := by
  constructor
  · intro tree
    exact ⟨List.perm_insertionSort _ _, List.sorted_insertionSort _ _⟩
  · obtain ⟨l⟩ := tr
    simp only [GitTree.mk.injEq] at h
    subst h
    decide

/-- Witness for `claim_C8_tree_sort` at the concrete three-entry tree. -/
theorem claim_C8_tree_sort_witness :
    treeSerialize ⟨[⟨byteStr "100644", byteStr (String.mk (List.replicate 40 '3')), byteStr "b"⟩,
        ⟨byteStr "040000", byteStr (String.mk (List.replicate 40 '2')), byteStr "a"⟩,
        ⟨byteStr "100644", byteStr (String.mk (List.replicate 40 '1')), byteStr "a"⟩]⟩ =
      .ok (byteStr "100644 a" ++ [0] ++ List.replicate 20 0x11 ++
        (byteStr "040000 a" ++ [0] ++ List.replicate 20 0x22) ++
        (byteStr "100644 b" ++ [0] ++ List.replicate 20 0x33)) :=
  (claim_C8_tree_sort
    ⟨[⟨byteStr "100644", byteStr (String.mk (List.replicate 40 '3')), byteStr "b"⟩,
      ⟨byteStr "040000", byteStr (String.mk (List.replicate 40 '2')), byteStr "a"⟩,
      ⟨byteStr "100644", byteStr (String.mk (List.replicate 40 '1')), byteStr "a"⟩]⟩ rfl).2

/-! ## Claim C7 -/

/-- Claim C7, counterexample: the canonical 6-character form that a parsed
5-digit mode is left-padded into does NOT classify uniformly.  Parsing the
entry `"40000 a\0" ++ 20 hash bytes` (a directory entry as real trees store
it) yields the space-padded mode `" 40000"`, and `Type()` on that mode
takes its leading two characters `" 4"` — not `"04"` — and returns the
invalid-type error instead of the tree type. -/
theorem claim_C7_counterexample :
    parseSingleTreeEntry (byteStr "40000 a" ++ [0] ++ List.replicate 20 0) 0 =
      .ok (28, ⟨byteStr " 40000", byteStr (String.mk (List.replicate 40 '0')), byteStr "a"⟩) ∧
    (GitTreeLeaf.mk (byteStr " 40000") (byteStr (String.mk (List.replicate 40 '0')))
        (byteStr "a")).gitType = .error (.invalidType (byteStr " 4")) ∧
    (GitTreeLeaf.mk (byteStr " 40000") (byteStr (String.mk (List.replicate 40 '0')))
        (byteStr "a")).gitType ≠ .ok .tree := by
  refine ⟨by decide, by decide, by decide⟩

/-- Claim C7 (amended): for a mode of any length other than 5 the leading
two characters classify the entry — `"10"` and `"12"` to blob, `"04"` to
tree, `"16"` to commit, anything else to the invalid-type error; a 5-digit
mode uses its leading ONE character, which can never equal any of those
two-character strings, so every 5-digit mode — and likewise the
space-padded 6-character form `" 4..."` a parsed 5-digit mode becomes (see
the counterexample) — yields the invalid-type error. -/
theorem claim_C7_type_classification (mode sha path : Bytes) :
    (mode.length = 5 → ∀ t, (GitTreeLeaf.mk mode sha path).gitType ≠ .ok t) ∧
    (mode.length ≠ 5 →
      ((mode.take 2 = byteStr "10" ∨ mode.take 2 = byteStr "12") →
        (GitTreeLeaf.mk mode sha path).gitType = .ok .blob) ∧
      (mode.take 2 = byteStr "04" → (GitTreeLeaf.mk mode sha path).gitType = .ok .tree) ∧
      (mode.take 2 = byteStr "16" → (GitTreeLeaf.mk mode sha path).gitType = .ok .commit) ∧
      (mode.take 2 ≠ byteStr "10" → mode.take 2 ≠ byteStr "04" →
        mode.take 2 ≠ byteStr "16" → mode.take 2 ≠ byteStr "12" →
        (GitTreeLeaf.mk mode sha path).gitType = .error (.invalidType (mode.take 2)))) := by
  have e10 : byteStr "10" = [49, 48] := rfl
  have e04 : byteStr "04" = [48, 52] := rfl
  have e16 : byteStr "16" = [49, 54] := rfl
  have e12 : byteStr "12" = [49, 50] := rfl
  constructor
  · intro h5 t
    have hlen : (mode.take 1).length = 1 := by
      rw [List.length_take]
      omega
    have h10 : ¬ mode.take 1 = byteStr "10" := fun hEq => by rw [hEq, e10] at hlen; simp at hlen
    have h04 : ¬ mode.take 1 = byteStr "04" := fun hEq => by rw [hEq, e04] at hlen; simp at hlen
    have h16 : ¬ mode.take 1 = byteStr "16" := fun hEq => by rw [hEq, e16] at hlen; simp at hlen
    have h12 : ¬ mode.take 1 = byteStr "12" := fun hEq => by rw [hEq, e12] at hlen; simp at hlen
    simp only [GitTreeLeaf.gitType, h5, if_true, if_pos, h10, h04, h16, h12, if_false]
    simp
  · intro h5
    refine ⟨?_, ?_, ?_, ?_⟩
    · rintro (h | h) <;>
        simp only [GitTreeLeaf.gitType, h5, if_false, h, e10, e04, e16, e12] <;> rfl
    · intro h
      simp only [GitTreeLeaf.gitType, h5, if_false, h, e10, e04, e16, e12]
      rfl
    · intro h
      simp only [GitTreeLeaf.gitType, h5, if_false, h, e10, e04, e16, e12]
      rfl
    · intro h10 h04 h16 h12
      simp only [GitTreeLeaf.gitType, h5, if_false]
      rw [if_neg h10, if_neg h04, if_neg h16, if_neg h12]

/-- Witness for `claim_C7_type_classification`: a 6-character directory
mode `"040000"` classifies as tree. -/
theorem claim_C7_type_classification_witness :
    (GitTreeLeaf.mk (byteStr "040000") [] []).gitType = .ok .tree :=
  ((claim_C7_type_classification (byteStr "040000") [] []).2 (by decide)).2.1 (by decide)

/-! ## SHA-1 (`crypto/sha1`, used by `calculateSHA` in object.go) -/

/-- Truncation to a 32-bit word. -/
def w32 (n : Nat) : Nat := n % 4294967296

/-- Left rotation of a 32-bit word. -/
def rotl32 (n k : Nat) : Nat := w32 ((w32 n <<< k) ||| (w32 n >>> (32 - k)))

/-- Big-endian 8-byte encoding of a length in bits. -/
def be64 (n : Nat) : Bytes :=
  [(n >>> 56) % 256, (n >>> 48) % 256, (n >>> 40) % 256, (n >>> 32) % 256,
   (n >>> 24) % 256, (n >>> 16) % 256, (n >>> 8) % 256, n % 256]

/-- SHA-1 padding: `0x80`, zeros to 56 mod 64, then the bit length. -/
def sha1pad (msg : Bytes) : Bytes :=
  let len := msg.length
  let total := ((len + 8) / 64 + 1) * 64
  msg ++ [128] ++ List.replicate (total - len - 9) 0 ++ be64 (8 * len)

/-- Big-endian word from bytes. -/
def beWord (b : Bytes) : Nat := b.foldl (fun acc x => acc * 256 + x) 0

/-- Message-schedule extension: append `n` further words, each the 1-bit
left rotation of the XOR of the words 3, 8, 14 and 16 positions back. -/
def sha1Schedule : Nat → List Nat → List Nat
  | 0, ws => ws
  | n + 1, ws =>
    sha1Schedule n (ws ++ [rotl32
      (ws.getD (ws.length - 3) 0 ^^^ ws.getD (ws.length - 8) 0 ^^^
       ws.getD (ws.length - 14) 0 ^^^ ws.getD (ws.length - 16) 0) 1])

/-- One SHA-1 round per schedule word (`i` is the round index). -/
def sha1Rounds : List Nat → Nat → Nat × Nat × Nat × Nat × Nat → Nat × Nat × Nat × Nat × Nat
  | [], _, st => st
  | w :: ws, i, (a, b, c, d, e) =>
    let f :=
      if i < 20 then (b &&& c) ||| ((4294967295 - b) &&& d)
      else if i < 40 then b ^^^ c ^^^ d
      else if i < 60 then (b &&& c) ||| (b &&& d) ||| (c &&& d)
      else b ^^^ c ^^^ d
    let k :=
      if i < 20 then 1518500249
      else if i < 40 then 1859775393
      else if i < 60 then 2400959708
      else 3395469782
    let temp := w32 (rotl32 a 5 + f + e + k + w)
    sha1Rounds ws (i + 1) (temp, a, rotl32 b 30, c, d)

/-- Compression of one 64-byte block into the running state. -/
def sha1Block (st : Nat × Nat × Nat × Nat × Nat) (block : Bytes) : Nat × Nat × Nat × Nat × Nat :=
  let ws0 := (List.range 16).map (fun i => beWord (goSlice block (4 * i) (4 * i + 4)))
  let ws := sha1Schedule 64 ws0
  match st, sha1Rounds ws 0 st with
  | (h0, h1, h2, h3, h4), (a, b, c, d, e) =>
    (w32 (h0 + a), w32 (h1 + b), w32 (h2 + c), w32 (h3 + d), w32 (h4 + e))

/-- Fold the compression over the given number of 64-byte blocks. -/
def sha1Blocks : Nat → Nat × Nat × Nat × Nat × Nat → Bytes → Nat × Nat × Nat × Nat × Nat
  | 0, st, _ => st
  | n + 1, st, data => sha1Blocks n (sha1Block st (data.take 64)) (data.drop 64)

/-- The four big-endian bytes of a 32-bit word. -/
def wordBytes (w : Nat) : Bytes := [(w >>> 24) % 256, (w >>> 16) % 256, (w >>> 8) % 256, w % 256]

/-- `calculateSHA` of object.go: the hex-encoded SHA-1 digest of the
content, as ASCII bytes (Go returns a `string`; strings are bytes in this
embedding). -/
def calculateSHA (content : Bytes) : Bytes :=
  let padded := sha1pad content
  match sha1Blocks (padded.length / 64)
      (1732584193, 4023233417, 2562383102, 271733878, 3285377520) padded with
  | (h0, h1, h2, h3, h4) =>
    hexEncode (wordBytes h0 ++ wordBytes h1 ++ wordBytes h2 ++ wordBytes h3 ++ wordBytes h4)

/-! ## Object store (object.go) -/

/-- The read/write pipeline errors of object.go (each `fmt.Errorf` site
gets one constructor; `parseFuel` models a KVLM parse that ran out of
fuel, i.e. a run on which the Go parser does not return). -/
inductive ObjError where
  | invalidFormat
  | invalidHeader
  | invalidType (name : Bytes)
  | invalidSize
  | sizeMismatch
  | unsupportedType
  | fileNotFound
  | serializeFail (e : KvlmError)
  | deserializeFail (e : CommitError)
  | treeFail (e : TreeError)
  | parseFuel
deriving DecidableEq

/-- `TypeFromString` of object.go. -/
def TypeFromString (s : Bytes) : Except ObjError GitObjectType :=
  if s = byteStr "blob" then .ok .blob
  else if s = byteStr "commit" then .ok .commit
  else if s = byteStr "tree" then .ok .tree
  else if s = byteStr "tag" then .ok .tag
  else .error (.invalidType s)

/-- The in-memory object values of the four variants: `BlobObject` holds
its raw data; `CommitObject` holds the parsed KVLM dictionary and the
typed commit record its `Deserialize` builds; `TreeObject` holds leaves;
`TagObject` holds its KVLM dictionary. -/
inductive GitObjectVal where
  | blob (data : Bytes)
  | commit (kvlm : OrderedDict) (record : GitCommit)
  | tree (entries : List GitTreeLeaf)
  | tag (kvlm : OrderedDict)
deriving DecidableEq

/-- `Format()` of each variant. -/
def GitObjectVal.format : GitObjectVal → GitObjectType
  | .blob _ => .blob
  | .commit _ _ => .commit
  | .tree _ => .tree
  | .tag _ => .tag

/-- `Serialize()` of each variant: identity for blobs, KVLM serialization
for commits and tags, the tree codec for trees. -/
def serializeObject : GitObjectVal → Except ObjError Bytes
  | .blob data => .ok data
  | .commit kvlm _ =>
    match KvlmSerialize (some kvlm) with
    | .error e => .error (.serializeFail e)
    | .ok b => .ok b
  | .tree entries =>
    match treeSerialize ⟨entries⟩ with
    | .error e => .error (.treeFail e)
    | .ok b => .ok b
  | .tag kvlm =>
    match KvlmSerialize (some kvlm) with
    | .error e => .error (.serializeFail e)
    | .ok b => .ok b

/-- `prepareObject` of object.go: the header
`<type-name> <decimal-length>` followed by a NUL byte and the payload. -/
def prepareObject (ot : GitObjectType) (data : Bytes) : Bytes :=
  byteStr ot.toStr ++ [32] ++ byteStr (toString data.length) ++ [0] ++ data

/-- `parseObject` of object.go: split at the first NUL; the header must be
`<type-name> <decimal-length>` (exactly one space-separated split, a
recognized type name, an integer size); the payload length must equal the
declared size. -/
def parseObject (content : Bytes) : Except ObjError (GitObjectType × Bytes) :=
  let nullIndex := indexByte content 0
  if nullIndex = -1 then .error .invalidFormat
  else
    let header := content.take nullIndex.toNat
    let parts := splitN2OnByte 32 header
    if parts.length ≠ 2 then .error .invalidHeader
    else
      match TypeFromString (parts.getD 0 []) with
      | .error e => .error e
      | .ok ot =>
        match parseInt64 (parts.getD 1 []) with
        | none => .error .invalidSize
        | some size =>
          let data := content.drop (nullIndex.toNat + 1)
          if (data.length : Int) ≠ size then .error .sizeMismatch
          else .ok (ot, data)

/-- `createObject` of object.go: only the blob and commit cases construct
an object; tree and tag fall through to the `unsupported object type`
error. -/
def createObject (ot : GitObjectType) : Except ObjError GitObjectType :=
  match ot with
  | .blob => .ok .blob
  | .commit => .ok .commit
  | _ => .error .unsupportedType

/-- `Deserialize` of the variants `createObject` can produce: a blob
stores the payload unchanged; a commit KVLM-parses the payload into a
fresh dictionary and builds the typed record (failing on a malformed
one). -/
def deserializeObject (ot : GitObjectType) (data : Bytes) (fuel : Nat) :
    Except ObjError GitObjectVal :=
  match ot with
  | .blob => .ok (.blob data)
  | .commit =>
    match KvlmParse data 0 (some OrderedDict.new) fuel with
    | none => .error .parseFuel
    | some kvlm =>
      match CreateCommitFromKVLM kvlm with
      | .error e => .error (.deserializeFail e)
      | .ok c => .ok (.commit kvlm c)
  | .tree => .error .unsupportedType
  | .tag => .error .unsupportedType

/-- The part of `ReadObject` after the file is read and decompressed:
`parseObject`, then `createObject`, then the variant's `Deserialize`. -/
def readObjectContent (content : Bytes) (fuel : Nat) : Except ObjError GitObjectVal :=
  match parseObject content with
  | .error e => .error e
  | .ok (ot, data) =>
    match createObject ot with
    | .error e => .error e
    | .ok ot => deserializeObject ot data fuel

/-- The file system visible to the object store: a list of
(path-segment-list, raw file bytes) pairs, newest first.  The
hash-derived path `objects/<first 2 hex chars>/<remaining>` built by
`WriteObject` through `GetGitFilePath` is modelled by its segment list. -/
abbrev GitFs := List (List Bytes × Bytes)

/-- Lookup in the modelled file system. -/
def fsRead (fs : GitFs) (p : List Bytes) : Option Bytes :=
  (fs.find? (fun e => e.1 == p)).map (fun e => e.2)

/-- File write in the modelled file system. -/
def fsWrite (fs : GitFs) (p : List Bytes) (c : Bytes) : GitFs := (p, c) :: fs

/-- `ObjectDir` of repo.go. -/
def ObjectDir : Bytes := byteStr "objects"

/-- The hash-derived path of object.go: `objects`, the first two hex
characters, the remaining characters. -/
def objectPath (sha : Bytes) : List Bytes := [ObjectDir, sha.take 2, sha.drop 2]

/-- `WriteObject` of object.go, parameterized by the `zlib` compression
function (an external library, kept abstract): serialize, prepend the
header, hash; persist the compressed content at the hash-derived path only
when `changeRepo` is true; the hash is returned either way. -/
def WriteObject (compress : Bytes → Bytes) (fs : GitFs) (obj : GitObjectVal)
    (changeRepo : Bool) : Except ObjError (Bytes × GitFs) :=
  match serializeObject obj with
  | .error e => .error e
  | .ok data =>
    let content := prepareObject obj.format data
    let sha := calculateSHA content
    if changeRepo then .ok (sha, fsWrite fs (objectPath sha) (compress content))
    else .ok (sha, fs)

/-- `ReadObject` of object.go, parameterized by the `zlib` decompression
function: read the file at the hash-derived path, decompress, and run the
parse/create/deserialize pipeline. -/
def ReadObject (decompress : Bytes → Bytes) (fs : GitFs) (sha : Bytes) (fuel : Nat) :
    Except ObjError GitObjectVal :=
  match fsRead fs (objectPath sha) with
  | none => .error .fileNotFound
  | some comp => readObjectContent (decompress comp) fuel

/-! ## Claim C3 -/

set_option maxRecDepth 1000000

/-- Claim C3: writing a blob with payload `"hello"` and `persist = true`
stores, at the hash-derived path, content that decompresses to exactly the
header `"blob 5\x00"` followed by `"hello"`; the returned hash is the
SHA-1 of header+payload (the literal below is the well-known digest of
`"blob 5\x00hello"`); reading that hash back yields a blob object whose
`Serialize` returns exactly `"hello"`; and with `persist = false` the same
hash is returned and nothing is written.  Compression is the abstract
`zlib` pair, assumed to round-trip. -/
theorem claim_C3_blob_store_roundtrip (fs : GitFs) (compress decompress : Bytes → Bytes)
    (hinv : ∀ x, decompress (compress x) = x) :
    ∃ fs',
      WriteObject compress fs (.blob (byteStr "hello")) true =
        .ok (byteStr "b6fc4c620b67d95f953a5c1c1230aaab5db5a1b0", fs') ∧
      (fsRead fs' (objectPath (byteStr "b6fc4c620b67d95f953a5c1c1230aaab5db5a1b0"))).map
          decompress = some (byteStr "blob 5" ++ [0] ++ byteStr "hello") ∧
      calculateSHA (byteStr "blob 5" ++ [0] ++ byteStr "hello") =
        byteStr "b6fc4c620b67d95f953a5c1c1230aaab5db5a1b0" ∧
      ReadObject decompress fs' (byteStr "b6fc4c620b67d95f953a5c1c1230aaab5db5a1b0") 8 =
        .ok (.blob (byteStr "hello")) ∧
      serializeObject (.blob (byteStr "hello")) = .ok (byteStr "hello") ∧
      WriteObject compress fs (.blob (byteStr "hello")) false =
        .ok (byteStr "b6fc4c620b67d95f953a5c1c1230aaab5db5a1b0", fs) := by
  have hsha : calculateSHA (prepareObject GitObjectType.blob (byteStr "hello")) =
      byteStr "b6fc4c620b67d95f953a5c1c1230aaab5db5a1b0" := by decide
  have hcontent : prepareObject GitObjectType.blob (byteStr "hello") =
      byteStr "blob 5" ++ [0] ++ byteStr "hello" := by decide
  refine ⟨fsWrite fs (objectPath (byteStr "b6fc4c620b67d95f953a5c1c1230aaab5db5a1b0"))
      (compress (prepareObject GitObjectType.blob (byteStr "hello"))), ?_, ?_, ?_, ?_, rfl, ?_⟩
  · simp only [WriteObject, serializeObject, GitObjectVal.format, hsha, if_true]
  · simp only [fsRead, fsWrite, List.find?, beq_self_eq_true, Option.map_some]
    simp only [Option.map]
    rw [hinv, hcontent]
  · rw [← hcontent]
    exact hsha
  · simp only [ReadObject, fsRead, fsWrite, List.find?, beq_self_eq_true]
    simp only [Option.map]
    rw [hinv, hcontent]
    decide
  · simp only [WriteObject, serializeObject, GitObjectVal.format, hsha]
    rfl

/-- Witness for `claim_C3_blob_store_roundtrip`: the identity pair as
compression on the empty file system. -/
theorem claim_C3_blob_store_roundtrip_witness :
    ∃ fs',
      WriteObject (fun x => x) [] (.blob (byteStr "hello")) true =
        .ok (byteStr "b6fc4c620b67d95f953a5c1c1230aaab5db5a1b0", fs') ∧
      (fsRead fs' (objectPath (byteStr "b6fc4c620b67d95f953a5c1c1230aaab5db5a1b0"))).map
          (fun x => x) = some (byteStr "blob 5" ++ [0] ++ byteStr "hello") ∧
      calculateSHA (byteStr "blob 5" ++ [0] ++ byteStr "hello") =
        byteStr "b6fc4c620b67d95f953a5c1c1230aaab5db5a1b0" ∧
      ReadObject (fun x => x) fs' (byteStr "b6fc4c620b67d95f953a5c1c1230aaab5db5a1b0") 8 =
        .ok (.blob (byteStr "hello")) ∧
      serializeObject (.blob (byteStr "hello")) = .ok (byteStr "hello") ∧
      WriteObject (fun x => x) [] (.blob (byteStr "hello")) false =
        .ok (byteStr "b6fc4c620b67d95f953a5c1c1230aaab5db5a1b0", []) :=
  claim_C3_blob_store_roundtrip [] (fun x => x) (fun x => x) (fun _ => rfl)

/-! ## Claim C4 -/

/-- Helper: `take` of the left part of an append before a marker byte. -/
theorem take_append_cons (l : List Nat) (x : Nat) (r : List Nat) :
    (l ++ x :: r).take l.length = l := by
  induction l with
  | nil => simp
  | cons a t ih => simp [ih]

/-- Helper: `drop` past the left part and the marker byte of an append. -/
theorem drop_append_cons (l : List Nat) (x : Nat) (r : List Nat) :
    (l ++ x :: r).drop (l.length + 1) = r := by
  induction l with
  | nil => simp
  | cons a t ih => simp [ih]

/-- Helper: `findIdx?` for byte `b` over `l ++ b :: r` finds position
`l.length` when `l` avoids `b` (stated with the accumulator `i` of the
library `findIdx?`). -/
theorem findIdx?_beq_append (b : Nat) :
    ∀ (l r : List Nat) (i : Nat), (∀ x ∈ l, x ≠ b) →
      List.findIdx? (fun x => x == b) (l ++ b :: r) i = some (l.length + i) := by
  intro l
  induction l with
  | nil => intro r i _; simp [List.findIdx?_cons]
  | cons a t ih =>
    intro r i h
    have ha : (a == b) = false := by
      have := h a (by simp)
      simp [this]
    rw [List.cons_append, List.findIdx?_cons, if_neg (by simp [ha])]
    rw [ih r (i + 1) (fun x hx => h x (by simp [hx]))]
    congr 1
    simp
    omega

/-- Helper: `indexByte` of `b` over `l ++ b :: r` with `l` avoiding `b`. -/
theorem indexByte_append (b : Nat) (l r : List Nat) (h : ∀ x ∈ l, x ≠ b) :
    indexByte (l ++ b :: r) b = (l.length : Int) := by
  unfold indexByte
  rw [show (l ++ b :: r).findIdx? (fun x => x == b) = some (l.length + 0) from
    findIdx?_beq_append b l r 0 h]
  simp

/-- Helper: splitting `l ++ b :: r` at the first `b` when `l` avoids `b`. -/
theorem splitN2OnByte_append (b : Nat) (l r : List Nat) (h : ∀ x ∈ l, x ≠ b) :
    splitN2OnByte b (l ++ b :: r) = [l, r] := by
  unfold splitN2OnByte
  rw [show (l ++ b :: r).findIdx? (fun x => x == b) = some (l.length + 0) from
    findIdx?_beq_append b l r 0 h]
  simp only [Nat.add_zero]
  rw [take_append_cons, drop_append_cons]

/-- The bytes of every type name are lowercase letters. -/
theorem toStr_bytes_range (t : GitObjectType) : ∀ x ∈ byteStr t.toStr, 97 ≤ x ∧ x ≤ 116 := by
  cases t <;> decide

/-- `TypeFromString` inverts `String()` on every type. -/
theorem TypeFromString_toStr (t : GitObjectType) :
    TypeFromString (byteStr t.toStr) = .ok t := by
  cases t <;> decide

/-- A well-formed header parses to its type and payload: for any type `t`,
any size field that parses to exactly the payload length and contains no
NUL and no space, `parseObject` of
`<type-name> SPACE <size> NUL <payload>` succeeds. -/
theorem parseObject_wellformed (t : GitObjectType) (szBytes payload : Bytes)
    (hsz : parseInt64 szBytes = some (payload.length : Int))
    (hnul : ∀ x ∈ szBytes, x ≠ 0) :
    parseObject (byteStr t.toStr ++ [32] ++ szBytes ++ [0] ++ payload) = .ok (t, payload) := by
  have hassoc : byteStr t.toStr ++ [32] ++ szBytes ++ [0] ++ payload =
      (byteStr t.toStr ++ 32 :: szBytes) ++ 0 :: payload := by simp
  rw [hassoc]
  have hpre0 : ∀ x ∈ byteStr t.toStr ++ 32 :: szBytes, x ≠ 0 := by
    intro x hx
    rcases List.mem_append.mp hx with hx | hx
    · have := toStr_bytes_range t x hx
      omega
    · rcases List.mem_cons.mp hx with hx | hx
      · omega
      · exact hnul x hx
  have htype32 : ∀ x ∈ byteStr t.toStr, x ≠ 32 := by
    intro x hx
    have := toStr_bytes_range t x hx
    omega
  have hidx := indexByte_append 0 (byteStr t.toStr ++ 32 :: szBytes) payload hpre0
  unfold parseObject
  rw [hidx, if_neg (by omega)]
  rw [Int.toNat_natCast, take_append_cons, drop_append_cons]
  have hsplit := splitN2OnByte_append 32 (byteStr t.toStr) szBytes htype32
  simp only [hsplit]
  simp only [List.length_cons, List.length_nil, List.getD_cons_zero, List.getD_cons_succ,
    TypeFromString_toStr, hsz]
  rw [if_neg (by omega), if_neg (by omega)]

/-- Claim C4, counterexample: a stored object whose header names the
recognized type `tree` (with a correct length) does NOT come back as a
tree object: the header parses, but `createObject` supports only blob and
commit, so `ReadObject` fails with the unsupported-type error; likewise
for `tag`. -/
theorem claim_C4_counterexample :
    parseObject (byteStr "tree 0" ++ [0]) = .ok (.tree, []) ∧
    readObjectContent (byteStr "tree 0" ++ [0]) 4 = .error .unsupportedType ∧
    readObjectContent (byteStr "tag 0" ++ [0]) 4 = .error .unsupportedType := by
  refine ⟨by decide, by decide, by decide⟩

/-- Claim C4 (amended): over well-formed stored content
`<type-name> SPACE <size> NUL <payload>` whose size field parses to the
payload length, the read pipeline returns a blob object for `blob`,
dispatches to the commit deserializer for `commit` (succeeding exactly
when the payload decodes to a valid commit), and fails with the
unsupported-type error for `tree` and `tag` even though the header parses;
a content without a NUL fails with the invalid-format error, an
unrecognized type name with the unknown-type error naming it, an
unparsable size with the size error, and a payload shorter than the
declared size with the mismatch error. -/
theorem claim_C4_read_dispatch (szBytes payload : Bytes) (fuel : Nat)
    (hsz : parseInt64 szBytes = some (payload.length : Int))
    (hnul : ∀ x ∈ szBytes, x ≠ 0) :
    readObjectContent (byteStr "blob" ++ [32] ++ szBytes ++ [0] ++ payload) fuel =
      .ok (.blob payload) ∧
    readObjectContent (byteStr "commit" ++ [32] ++ szBytes ++ [0] ++ payload) fuel =
      deserializeObject .commit payload fuel ∧
    readObjectContent (byteStr "tree" ++ [32] ++ szBytes ++ [0] ++ payload) fuel =
      .error .unsupportedType ∧
    readObjectContent (byteStr "tag" ++ [32] ++ szBytes ++ [0] ++ payload) fuel =
      .error .unsupportedType ∧
    (∀ content : Bytes, indexByte content 0 = -1 →
      readObjectContent content fuel = .error .invalidFormat) ∧
    readObjectContent (byteStr "blah 0" ++ [0]) fuel = .error (.invalidType (byteStr "blah")) ∧
    readObjectContent (byteStr "blob x" ++ [0]) fuel = .error .invalidSize ∧
    readObjectContent (byteStr "blob 5" ++ [0] ++ byteStr "hell") fuel =
      .error .sizeMismatch := by
  refine ⟨?_, ?_, ?_, ?_, ?_, ?_, ?_, ?_⟩
  · unfold readObjectContent
    rw [show (byteStr "blob" : Bytes) = byteStr GitObjectType.blob.toStr from rfl,
      parseObject_wellformed GitObjectType.blob szBytes payload hsz hnul]
    rfl
  · unfold readObjectContent
    rw [show (byteStr "commit" : Bytes) = byteStr GitObjectType.commit.toStr from rfl,
      parseObject_wellformed GitObjectType.commit szBytes payload hsz hnul]
    rfl
  · unfold readObjectContent
    rw [show (byteStr "tree" : Bytes) = byteStr GitObjectType.tree.toStr from rfl,
      parseObject_wellformed GitObjectType.tree szBytes payload hsz hnul]
    rfl
  · unfold readObjectContent
    rw [show (byteStr "tag" : Bytes) = byteStr GitObjectType.tag.toStr from rfl,
      parseObject_wellformed GitObjectType.tag szBytes payload hsz hnul]
    rfl
  · intro content hidx
    unfold readObjectContent parseObject
    rw [hidx]
    rfl
  · unfold readObjectContent
    rw [show parseObject (byteStr "blah 0" ++ [0]) =
      .error (.invalidType (byteStr "blah")) from by decide]
  · unfold readObjectContent
    rw [show parseObject (byteStr "blob x" ++ [0]) = .error .invalidSize from by decide]
  · unfold readObjectContent
    rw [show parseObject (byteStr "blob 5" ++ [0] ++ byteStr "hell") =
      .error .sizeMismatch from by decide]

/-- Witness for `claim_C4_read_dispatch` at a concrete blob content. -/
theorem claim_C4_read_dispatch_witness :
    readObjectContent (byteStr "blob" ++ [32] ++ byteStr "5" ++ [0] ++ byteStr "hello") 4 =
      .ok (.blob (byteStr "hello")) :=
  (claim_C4_read_dispatch (byteStr "5") (byteStr "hello") 4 (by decide) (by decide)).1

/-! ## Reference resolution (ref.go) -/

/-- What `fileutils.IsFile` / `os.ReadFile` see at a path: nothing at all
(`os.Stat` fails), a directory, or a regular file with its content. -/
inductive FsEntry where
  | absent
  | dir
  | file (content : Bytes)
deriving DecidableEq

/-- The ref-resolution errors: `statFail` is the `os.Stat` error that
`fileutils.IsFile` returns for a non-existent path (propagated by
`resolveRef`); `fuelOut` models a recursion that exceeds the fuel bound
(reference cycles recurse forever in the Go code). -/
inductive RefError where
  | statFail (path : String)
  | fuelOut
deriving DecidableEq

/-- `resolveRef` of ref.go, over an abstract file system (`GetGitFilePath`
is an injective path mapping and is absorbed into the keying of `fs`):
a path whose `Stat` fails propagates that error; a non-file returns the
empty result without error; otherwise the LAST byte of non-empty content
is dropped unconditionally (`data = data[:len(data)-1]` — whether or not
it is a newline), a `"ref: "` prefix recurses on the named path, and
anything else is returned as the terminal hash. -/
def resolveRef (fs : String → FsEntry) : String → Nat → Except RefError String
  | _, 0 => .error .fuelOut
  | path, fuel + 1 =>
    match fs path with
    | .absent => .error (.statFail path)
    | .dir => .ok ""
    | .file content =>
      let data := if content.length > 0 then content.dropLast else content
      if (byteStr "ref: ").isPrefixOf data then
        resolveRef fs (bytesToStr (data.drop 5)) fuel
      else
        .ok (bytesToStr data)

/-! ## Claim C9 -/

/-- A file system with a single reference file whose content has NO
trailing newline. -/
def refFsNoNl : String → FsEntry :=
  fun p => if p = "refs/heads/x" then .file (byteStr "abcd") else .absent

/-- Claim C9, counterexample: resolving a path that does not exist as a
file returns the `os.Stat` error, NOT an empty result without error; and
a reference file containing `"abcd"` with no trailing newline resolves to
`"abc"`, not to its content verbatim — the code drops the last byte of
non-empty content unconditionally instead of stripping one trailing
newline if present. -/
theorem claim_C9_counterexample :
    resolveRef (fun _ => .absent) "refs/heads/missing" 5 =
      .error (.statFail "refs/heads/missing") ∧
    resolveRef refFsNoNl "refs/heads/x" 5 = .ok "abc" ∧
    resolveRef refFsNoNl "refs/heads/x" 5 ≠ .ok "abcd" := by
  refine ⟨by decide, by decide, by decide⟩

/-- Claim C9 (amended): for every reference path, a path whose `Stat`
fails (it does not exist) yields that error; a path that exists but is not
a regular file yields an empty result without error; otherwise the last
byte of non-empty content is dropped unconditionally (a trailing newline
if the file is well-formed, a content byte if not), after which content
starting with the literal prefix `"ref: "` has the prefix stripped and the
named path resolved recursively, and any other content is returned
verbatim as the terminal hash. -/
theorem claim_C9_resolve (fs : String → FsEntry) (path : String) (fuel : Nat) :
    (fs path = .absent → resolveRef fs path (fuel + 1) = .error (.statFail path)) ∧
    (fs path = .dir → resolveRef fs path (fuel + 1) = .ok "") ∧
    (∀ c, fs path = .file c → c ≠ [] →
      ¬ ((byteStr "ref: ").isPrefixOf c.dropLast = true) →
      resolveRef fs path (fuel + 1) = .ok (bytesToStr c.dropLast)) ∧
    (∀ c, fs path = .file c → c ≠ [] →
      (byteStr "ref: ").isPrefixOf c.dropLast = true →
      resolveRef fs path (fuel + 1) =
        resolveRef fs (bytesToStr (c.dropLast.drop 5)) fuel) := by
  refine ⟨?_, ?_, ?_, ?_⟩
  · intro h
    simp only [resolveRef, h]
  · intro h
    simp only [resolveRef, h]
  · intro c hc hne hpre
    have hlen : c.length > 0 := List.length_pos.mpr hne
    simp only [resolveRef, hc, hlen, if_true, hpre, if_false]
    rfl
  · intro c hc hne hpre
    have hlen : c.length > 0 := List.length_pos.mpr hne
    simp only [resolveRef, hc, hlen, if_true, hpre]

/-- A file system with a symbolic `HEAD` pointing at a branch holding a
40-character hash (both files with the customary trailing newline). -/
def refFsHead : String → FsEntry :=
  fun p =>
    if p = "HEAD" then .file (byteStr "ref: refs/heads/main\n")
    else if p = "refs/heads/main" then
      .file (byteStr "2f8b78bb08a5a07930c14729ff16c9c14e2652b2\n")
    else .absent

/-- Witness for `claim_C9_resolve`: the two-step indirection of the spec's
example, `HEAD → "ref: refs/heads/main" → hash`. -/
theorem claim_C9_resolve_witness :
    resolveRef refFsHead "HEAD" 3 = .ok "2f8b78bb08a5a07930c14729ff16c9c14e2652b2" := by
  have h1 := (claim_C9_resolve refFsHead "HEAD" 2).2.2.2
    (byteStr "ref: refs/heads/main\n") (by decide) (by decide) (by decide)
  have h2 := (claim_C9_resolve refFsHead "refs/heads/main" 1).2.2.1
    (byteStr "2f8b78bb08a5a07930c14729ff16c9c14e2652b2\n") (by decide) (by decide) (by decide)
  rw [h1]
  rw [show bytesToStr ((byteStr "ref: refs/heads/main\n").dropLast.drop 5) =
    "refs/heads/main" from by decide]
  rw [h2]
  decide
